import Mathlib

/-!
# Verification of the go-webalizer log-aggregation core

Shallow embedding of the streaming log-aggregation engine of
`github.com/rbscholtus/go-webalizer`:

* `internal/parser/parser.go` — per-field unmarshalling and the `ProcessLog`
  accumulation loop;
* `internal/logstats` — the `LogStats` accumulator, its update helpers, the
  country-enrichment merge (`LookupCountries`) and the read-side rollups
  (`AggregatesByMonth`, `recentKeys`, `RecentAggregates`, `MethRespAggregates`);
* `internal/countrycache/countrycache.go` — `ParallelLookup` / `Lookup`.

Modelling conventions:

* Go maps are modelled as association lists (`List (κ × α)`), read through
  `lookupA` (first binding wins) and written through `setA` (replace the first
  binding, else append).  A Go map read of a missing key yields the zero value,
  modelled by `getA` with an explicit default.
* `uint64` counters are modelled as `Nat`: the counters only ever grow by
  per-line increments, so 64-bit wraparound is unreachable for any physically
  possible input and is not load-bearing for any claim.  The one place where
  the 64-bit bound is semantically meaningful — `strconv.ParseUint(s, 10, 64)`
  rejecting out-of-range literals — keeps the explicit `< 2^64` check.
* `time.Time` is modelled as the instant in nanoseconds since Go's zero time
  (0001-01-01 00:00:00 UTC, the zero `time.Time`), together with the parsed
  zone offset in seconds (Go keeps the fixed zone produced by `time.Parse`).
  `time.Time.Sub` saturates to the `int64` `Duration` range, as documented.
* The geolocation database and DNS resolution are external collaborators; they
  are modelled by an oracle `geo : String → Option String` (`none` = the
  resolution/lookup failure branch of `countrycache.lookupCountry`).
* `countrycache.ParallelLookup` runs a fan-out/fan-in worker pool whose single
  collector serialises all writes; every submitted visitor produces exactly one
  `(visitor, country)` result, so the completed cache is the deterministic map
  sending each visitor to its resolved country (or the fallback sentinel); it
  is modelled by that map.
-/

/-! ## Association-list model of Go maps -/

/-- First-binding lookup in an association list (a Go map read, `m[k]`). -/
def lookupA {κ α : Type} [DecidableEq κ] (k : κ) : List (κ × α) → Option α
  | [] => none
  | (k', v) :: rest => if k = k' then some v else lookupA k rest

/-- Go map read with the zero value for a missing key (`v := m[k]`). -/
def getA {κ α : Type} [DecidableEq κ] (m : List (κ × α)) (k : κ) (d : α) : α :=
  (lookupA k m).getD d

/-- Go map write (`m[k] = v`): replace the first binding of `k`, else append. -/
def setA {κ α : Type} [DecidableEq κ] (m : List (κ × α)) (k : κ) (v : α) : List (κ × α) :=
  match m with
  | [] => [(k, v)]
  | (k', v') :: rest => if k = k' then (k, v) :: rest else (k', v') :: setA rest k v

/-- The key list of an association list (the Go map's key range). -/
def keysA {κ α : Type} (m : List (κ × α)) : List κ := m.map Prod.fst

@[simp] theorem lookupA_nil {κ α : Type} [DecidableEq κ] (k : κ) :
    lookupA k ([] : List (κ × α)) = none := rfl

@[simp] theorem lookupA_cons {κ α : Type} [DecidableEq κ] (k k' : κ) (v : α)
    (rest : List (κ × α)) :
    lookupA k ((k', v) :: rest) = if k = k' then some v else lookupA k rest := rfl

theorem lookupA_setA {κ α : Type} [DecidableEq κ] (m : List (κ × α)) (k k' : κ) (v : α) :
    lookupA k' (setA m k v) = if k' = k then some v else lookupA k' m := by
  induction m with
  | nil => simp [setA]
  | cons hd tl ih =>
    obtain ⟨a, b⟩ := hd
    by_cases hka : k = a
    · subst hka
      by_cases hk' : k' = k <;> simp [setA, hk']
    · by_cases hk' : k' = k
      · subst hk'
        simp [setA, hka, ih, Ne.symm hka]
      · by_cases hk'a : k' = a <;>
          simp [setA, hka, hk', hk'a, ih, Ne.symm hka]

@[simp] theorem lookupA_setA_self {κ α : Type} [DecidableEq κ]
    (m : List (κ × α)) (k : κ) (v : α) :
    lookupA k (setA m k v) = some v := by simp [lookupA_setA]

theorem lookupA_setA_ne {κ α : Type} [DecidableEq κ]
    (m : List (κ × α)) (k k' : κ) (v : α) (h : k' ≠ k) :
    lookupA k' (setA m k v) = lookupA k' m := by simp [lookupA_setA, h]

theorem getA_setA {κ α : Type} [DecidableEq κ] (m : List (κ × α)) (k k' : κ) (v d : α) :
    getA (setA m k v) k' d = if k' = k then v else getA m k' d := by
  by_cases h : k' = k <;> simp [getA, lookupA_setA, h]

@[simp] theorem getA_setA_self {κ α : Type} [DecidableEq κ]
    (m : List (κ × α)) (k : κ) (v d : α) :
    getA (setA m k v) k d = v := by simp [getA_setA]

@[simp] theorem getA_nil {κ α : Type} [DecidableEq κ] (k : κ) (d : α) :
    getA ([] : List (κ × α)) k d = d := rfl

/-- Sum of a numeric projection over all bindings of an association list. -/
def sumA {κ α : Type} (f : α → Nat) (m : List (κ × α)) : Nat :=
  (m.map fun p => f p.2).sum

/-- Sum of the values of a `Nat`-valued association list
(the Go pattern `for _, count := range m { total += count }`). -/
def sumVals {κ : Type} (m : List (κ × Nat)) : Nat := sumA id m

@[simp] theorem sumA_nil {κ α : Type} (f : α → Nat) : sumA f ([] : List (κ × α)) = 0 := rfl

@[simp] theorem sumA_cons {κ α : Type} (f : α → Nat) (p : κ × α) (m : List (κ × α)) :
    sumA f (p :: m) = f p.2 + sumA f m := by simp [sumA]

theorem sumA_setA_of_lookupA_none {κ α : Type} [DecidableEq κ] (f : α → Nat)
    (m : List (κ × α)) (k : κ) (v : α) (h : lookupA k m = none) :
    sumA f (setA m k v) = sumA f m + f v := by
  induction m with
  | nil => simp [setA]
  | cons hd tl ih =>
    obtain ⟨a, b⟩ := hd
    by_cases hka : k = a
    · simp [hka] at h
    · simp only [lookupA_cons, if_neg hka] at h
      simp [setA, hka, ih h]
      omega

theorem sumA_setA_of_lookupA_some {κ α : Type} [DecidableEq κ] (f : α → Nat)
    (m : List (κ × α)) (k : κ) (v w : α) (h : lookupA k m = some w) :
    sumA f (setA m k v) + f w = sumA f m + f v := by
  induction m with
  | nil => simp at h
  | cons hd tl ih =>
    obtain ⟨a, b⟩ := hd
    by_cases hka : k = a
    · subst hka
      simp at h
      subst h
      simp [setA]
      ring
    · simp only [lookupA_cons, if_neg hka] at h
      simp [setA, hka]
      have := ih h
      omega

/-- Lexicographic strict comparison of character lists. -/
def listLtb : List Char → List Char → Bool
  | [], [] => false
  | [], _ :: _ => true
  | _ :: _, [] => false
  | a :: as, b :: bs => if a < b then true else if b < a then false else listLtb as bs

/-- Go's `string <` (bytewise lexicographic; UTF-8 byte order coincides with
code-point order). -/
def strLt (s t : String) : Bool := listLtb s.toList t.toList

/-- Go's `string <=`. -/
def strLe (s t : String) : Bool := !strLt t s

theorem listLtb_irrefl (l : List Char) : listLtb l l = false := by
  induction l with
  | nil => rfl
  | cons a as ih => simp [listLtb, ih]

theorem strLe_refl (s : String) : strLe s s = true := by
  simp [strLe, strLt, listLtb_irrefl]

theorem listLtb_trans {a b c : List Char} (h1 : listLtb a b = true)
    (h2 : listLtb b c = true) : listLtb a c = true := by
  induction a generalizing b c with
  | nil =>
    cases b with
    | nil => simp [listLtb] at h1
    | cons y ys =>
      cases c with
      | nil => simp [listLtb] at h2
      | cons z zs => simp [listLtb]
  | cons x xs ih =>
    cases b with
    | nil => simp [listLtb] at h1
    | cons y ys =>
      cases c with
      | nil => simp [listLtb] at h2
      | cons z zs =>
        simp only [listLtb] at h1 h2 ⊢
        rcases lt_trichotomy x y with hxy | hxy | hxy
        · rcases lt_trichotomy y z with hyz | hyz | hyz
          · simp [lt_trans hxy hyz]
          · subst hyz; simp [hxy]
          · simp [asymm hyz, hyz] at h2
        · subst hxy
          simp [lt_irrefl] at h1
          rcases lt_trichotomy x z with hyz | hyz | hyz
          · simp [hyz]
          · subst hyz
            simp [lt_irrefl] at h2 ⊢
            exact ih h1 h2
          · simp [asymm hyz, hyz] at h2
        · simp [asymm hxy, hxy] at h1

theorem listLtb_asymm {a b : List Char} (h : listLtb a b = true) :
    listLtb b a = false := by
  by_contra hc
  have hba : listLtb b a = true := by
    cases hball : listLtb b a
    · exact absurd hball hc
    · rfl
  have := listLtb_trans h hba
  rw [listLtb_irrefl] at this
  exact Bool.false_ne_true this

/-- `strLt` is a strict total order: trichotomy with equality. -/
theorem listLtb_total (a b : List Char) :
    listLtb a b = true ∨ a = b ∨ listLtb b a = true := by
  induction a generalizing b with
  | nil =>
    cases b with
    | nil => right; left; rfl
    | cons y ys => left; simp [listLtb]
  | cons x xs ih =>
    cases b with
    | nil => right; right; simp [listLtb]
    | cons y ys =>
      rcases lt_trichotomy x y with hxy | hxy | hxy
      · left; simp [listLtb, hxy]
      · subst hxy
        rcases ih ys with h | h | h
        · left; simp [listLtb, h]
        · right; left; rw [h]
        · right; right; simp [listLtb, h]
      · right; right; simp [listLtb, hxy, asymm hxy]

/-! ## Time model

`time.Time` is the instant in nanoseconds since Go's zero time
(0001-01-01 00:00:00 UTC); the zero `time.Time` is `0`.
-/

/-- `time.Duration` saturation bound (`math.MaxInt64` nanoseconds). -/
def int64Max : Int := 2 ^ 63 - 1

/-- `time.Duration` saturation bound (`math.MinInt64` nanoseconds). -/
def int64Min : Int := -(2 ^ 63)

/-- `time.Time.Sub`: the difference `t - u` in nanoseconds, saturating to the
`Duration` (`int64`) range as documented by the Go standard library. -/
def timeSub (t u : Int) : Int := max int64Min (min int64Max (t - u))

/-- `visitTimeout = 600 * time.Second`, in nanoseconds
(src/internal/parser/parser.go:19). -/
def visitTimeout : Int := 600 * 1000000000

/-- Saturation never changes which side of the 600-second threshold a
difference falls on: the clamped difference exceeds `visitTimeout` iff the
exact difference does. -/
theorem timeSub_gt_visitTimeout (t u : Int) :
    visitTimeout < timeSub t u ↔ visitTimeout < t - u := by
  simp only [timeSub, visitTimeout, int64Max, int64Min]
  omega

/-! ## Proleptic-Gregorian calendar

`time.Time.Format`, `time.Parse` and `time.Time.AddDate` on pure dates reduce
to conversions between a civil date `(y, m, d)` and a linear day count.  The
conversions below use the standard civil-from-days / days-from-civil
algorithms, with day `0` = 1970-01-01; Go's internal "absolute time" epoch
differs only by a constant offset, which cancels in every round trip.
-/

/-- Days from 0001-01-01 (Go's zero time) to 1970-01-01 (our day `0`). -/
def daysToUnixEpoch : Int := 719162

/-- Linear day count (day `0` = 1970-01-01) of a civil date.  `m` must be in
`1..12`; an out-of-range `d` spills over into adjacent months exactly as Go's
`time.Date` normalisation does. -/
def daysFromCivil (y0 m d : Int) : Int :=
  let y := y0 - (if m ≤ 2 then 1 else 0)
  let era := y.fdiv 400
  let yoe := y - era * 400
  let doy := (153 * (m + (if 2 < m then -3 else 9)) + 2).fdiv 5 + d - 1
  let doe := yoe * 365 + yoe.fdiv 4 - yoe.fdiv 100 + doy
  era * 146097 + doe - 719468

/-- Civil date of a linear day count (day `0` = 1970-01-01). -/
def civilFromDays (z0 : Int) : Int × Int × Int :=
  let z := z0 + 719468
  let era := z.fdiv 146097
  let doe := z - era * 146097
  let yoe := (doe - doe.fdiv 1460 + doe.fdiv 36524 - doe.fdiv 146096).fdiv 365
  let y := yoe + era * 400
  let doy := doe - (365 * yoe + yoe.fdiv 4 - yoe.fdiv 100)
  let mp := (5 * doy + 2).fdiv 153
  let d := doy - (153 * mp + 2).fdiv 5 + 1
  let m := mp + (if mp < 10 then 3 else -9)
  (y + (if m ≤ 2 then 1 else 0), m, d)

/-- Left-pad the decimal digits of `n` with zeros to `w` characters
(Go's zero-padded numeric layout fields). -/
def padNum (w : Nat) (n : Int) : String :=
  let s := toString n.toNat
  if s.length < w then String.mk (List.replicate (w - s.length) '0') ++ s else s

/-- `time.Time.Format("2006-01-02")` of a civil date. -/
def formatYMD : Int × Int × Int → String
  | (y, m, d) => padNum 4 y ++ "-" ++ padNum 2 m ++ "-" ++ padNum 2 d

/-- The value of a decimal digit character, if it is one. -/
def digitVal (c : Char) : Option Nat :=
  if '0' ≤ c ∧ c ≤ '9' then some (c.toNat - 48) else none

/-- Two-digit zero-padded number (Go's fixed-width `getnum`). -/
def num2 (a b : Char) : Option Nat := do
  let x ← digitVal a
  let y ← digitVal b
  pure (x * 10 + y)

/-- Whether `y` is a Gregorian leap year (`isLeap` in Go's time package). -/
def isLeap (y : Int) : Bool := y % 4 = 0 ∧ (y % 100 ≠ 0 ∨ y % 400 = 0)

/-- Number of days in month `m` of year `y` (months `1..12`). -/
def daysInMonth (y m : Int) : Int :=
  if m = 2 then (if isLeap y then 29 else 28)
  else if m = 4 ∨ m = 6 ∨ m = 9 ∨ m = 11 then 30
  else 31

/-- `time.Parse("2006-01-02", s)`: the civil date, or `none` when `s` is not a
well-formed `YYYY-MM-DD` with an in-range month and day (Go rejects a day out
of range for its month). -/
def parseDate (s : String) : Option (Int × Int × Int) :=
  match s.toList with
  | [y1, y2, y3, y4, '-', m1, m2, '-', d1, d2] => do
    let a ← digitVal y1
    let b ← digitVal y2
    let c ← digitVal y3
    let e ← digitVal y4
    let y : Int := Int.ofNat (((a * 10 + b) * 10 + c) * 10 + e)
    let m ← num2 m1 m2
    let d ← num2 d1 d2
    if 1 ≤ m ∧ m ≤ 12 ∧ 1 ≤ d ∧ (d : Int) ≤ daysInMonth y m then
      pure (y, (m : Int), (d : Int))
    else none
  | _ => none

/-- `time.Parse("2006-01-02", s)` with the error ignored: a malformed key
yields the zero `time.Time`, whose civil date is 0001-01-01
(the `lastTime, _ := time.Parse(...)` pattern in `logstats.recentKeys`). -/
def parseDateD (s : String) : Int × Int × Int := (parseDate s).getD (1, 1, 1)

/-- `time.Time.AddDate(years, months, days)` on a civil date: Go's `Date`
normalisation — fold the month into `1..12` (adjusting the year), then let an
out-of-range day spill linearly into adjacent months. -/
def addDate : Int × Int × Int → Int → Int → Int → Int × Int × Int
  | (y, m, d), years, months, days =>
    let mm := m + months - 1
    let y2 := y + years + mm.fdiv 12
    let m2 := mm.fmod 12 + 1
    civilFromDays (daysFromCivil y2 m2 1 + (d + days - 1))

/-- English month abbreviations, `time.Format("Jan")` for months `1..12`. -/
def monthAbbrevs : List String :=
  ["Jan", "Feb", "Mar", "Apr", "May", "Jun",
   "Jul", "Aug", "Sep", "Oct", "Nov", "Dec"]

/-- `time.Time.Format("Jan")` of month `m` (months `1..12`). -/
def monthAbbrev (m : Int) : String := (monthAbbrevs.getD (m - 1).toNat "Jan")

/-- `time.Parse("2006-01", s)`, the error ignored (zero time on failure), then
`Format("Jan")`: the month label of `logstats.AggregatesByMonth`. -/
def monthLabel (s : String) : String :=
  match s.toList with
  | [y1, y2, y3, y4, '-', m1, m2] =>
    match digitVal y1, digitVal y2, digitVal y3, digitVal y4, num2 m1 m2 with
    | some _, some _, some _, some _, some m =>
      if 1 ≤ m ∧ m ≤ 12 then monthAbbrev (m : Int) else monthAbbrev 1
    | _, _, _, _, _ => monthAbbrev 1
  | _ => monthAbbrev 1

/-- `time.Time.Format("Jan 2")` of a civil date
(the per-day label of `logstats.RecentAggregates`). -/
def formatMonthDay : Int × Int × Int → String
  | (_, m, d) => monthAbbrev m ++ " " ++ toString d.toNat

/-! ## Record extraction (src/internal/parser/parser.go) -/

/-- `parser.LogEntry`: one extracted log record.  `Timestamp` is the instant
in nanoseconds since Go's zero time; `TzOffset` is the fixed-zone offset in
seconds carried by the parsed `time.Time` (it determines the local calendar
date that `Format("2006-01-02")` renders). -/
structure LogEntry where
  IP : String
  Timestamp : Int
  TzOffset : Int
  Method : String
  URLPath : String
  RespCode : Nat
  Size : Nat
  Referrer : String
  UserAgent : String
  deriving Repr, DecidableEq

/-- Hexadecimal digit value (`unhex` in `net/url`). -/
def hexVal (c : Char) : Option Nat :=
  if '0' ≤ c ∧ c ≤ '9' then some (c.toNat - 48)
  else if 'a' ≤ c ∧ c ≤ 'f' then some (c.toNat - 97 + 10)
  else if 'A' ≤ c ∧ c ≤ 'F' then some (c.toNat - 65 + 10)
  else none

/-- `url.PathUnescape`: decode every `%XX` escape, failing exactly when a `%`
is not followed by two hexadecimal digits.  (Go unescapes at the byte level;
here each decoded byte becomes one character, which is faithful for the
ASCII data these claims exercise and immaterial to success/failure.) -/
def percentDecode : List Char → Option (List Char)
  | [] => some []
  | '%' :: a :: b :: rest =>
    match hexVal a, hexVal b with
    | some ha, some hb => (percentDecode rest).map (Char.ofNat (ha * 16 + hb) :: ·)
    | _, _ => none
  | '%' :: _ => none
  | c :: rest => (percentDecode rest).map (c :: ·)

/-- `url.PathUnescape` on a string. -/
def pathUnescape (s : String) : Option String :=
  (percentDecode s.toList).map String.mk

/-- `parser.unmarshalURLPath` (src/internal/parser/parser.go:36-42): the
decoded path on success; on decode failure the *raw* value together with the
error (`false` = an error was returned). -/
def unmarshalURLPath (value : String) : String × Bool :=
  match pathUnescape value with
  | some unescapedPath => (unescapedPath, true)
  | none => (value, false)

/-- `parser.unmarshalReferrer` (src/internal/parser/parser.go:54-60): same
fallback-to-raw behaviour as `unmarshalURLPath`. -/
def unmarshalReferrer (value : String) : String × Bool :=
  match pathUnescape value with
  | some unescapedRef => (unescapedRef, true)
  | none => (value, false)

/-- `strconv.ParseUint(s, 10, bitSize)`: a non-empty all-digit string whose
value fits in `bitSize` bits; no sign, no underscores. -/
def parseUint (bitSize : Nat) (s : String) : Option Nat :=
  match s.toList with
  | [] => none
  | cs =>
    if cs.all fun c => '0' ≤ c ∧ c ≤ '9' then
      let n := cs.foldl (fun acc c => acc * 10 + (c.toNat - 48)) 0
      if n < 2 ^ bitSize then some n else none
    else none

/-- `parser.unmarshalSize` (src/internal/parser/parser.go:45-51): the literal
`"-"` decodes to `0`; anything else must parse as a `uint64`. -/
def unmarshalSize (value : String) : Option Nat :=
  if value = "-" then some 0 else parseUint 64 value

/-- `time.Parse("02/Jan/2006:15:04:05 -0700", s)`
(src/internal/parser/parser.go:30-33): the instant in nanoseconds since the
zero time plus the zone offset in seconds, or `none` for a malformed
timestamp.  Go validates the clock fields and the day against its month. -/
def parseTimestamp (s : String) : Option (Int × Int) :=
  match s.toList with
  | [d1, d2, '/', n1, n2, n3, '/', y1, y2, y3, y4, ':', h1, h2, ':',
     mi1, mi2, ':', s1, s2, ' ', sgn, z1, z2, z3, z4] => do
    let d ← num2 d1 d2
    let monIdx ← monthAbbrevs.indexOf? (String.mk [n1, n2, n3])
    let mon : Int := Int.ofNat monIdx + 1
    let a ← digitVal y1
    let b ← digitVal y2
    let c ← digitVal y3
    let e ← digitVal y4
    let y : Int := Int.ofNat (((a * 10 + b) * 10 + c) * 10 + e)
    let hh ← num2 h1 h2
    let mi ← num2 mi1 mi2
    let ss ← num2 s1 s2
    let zh ← num2 z1 z2
    let zm ← num2 z3 z4
    let sign : Int ← if sgn = '+' then pure 1 else if sgn = '-' then pure (-1) else none
    if 1 ≤ d ∧ (d : Int) ≤ daysInMonth y mon ∧ hh ≤ 23 ∧ mi ≤ 59 ∧ ss ≤ 59 then
      let off : Int := sign * (zh * 3600 + zm * 60)
      let localSec : Int :=
        (daysFromCivil y mon d + daysToUnixEpoch) * 86400 + hh * 3600 + mi * 60 + ss
      pure ((localSec - off) * 1000000000, off)
    else none
  | _ => none

/-- The raw per-line fields, as split by the positional line grammar
`address - - [timestamp] "method path protocol" status size "referrer"
"user-agent"` (spec §6). -/
structure RawLine where
  address : String
  timestamp : String
  method : String
  urlpath : String
  respCode : String
  size : String
  referrer : String
  userAgent : String

/-- Modelled from the spec: `LogEntry.Extract` (the generated field-grammar
driver invoked at src/internal/parser/parser.go:89) is not part of src/ —
only its per-field unmarshallers are.  Per spec §4.1/§7 it fails the line on a
malformed timestamp, response code or size, while percent-decode failure of
the URL path or referrer is non-fatal: the field falls back to the raw value
(exactly what `unmarshalURLPath`/`unmarshalReferrer` return alongside their
error) and extraction still succeeds.  Address, method and user agent pass
through unvalidated. -/
def LogEntry.Extract (r : RawLine) : Option LogEntry := do
  let (ts, off) ← parseTimestamp r.timestamp
  let code ← parseUint 16 r.respCode
  let size ← unmarshalSize r.size
  pure { IP := r.address
         Timestamp := ts
         TzOffset := off
         Method := r.method
         URLPath := (unmarshalURLPath r.urlpath).1
         RespCode := code
         Size := size
         Referrer := (unmarshalReferrer r.referrer).1
         UserAgent := r.userAgent }

/-- `line.Timestamp.Format("2006-01-02")`
(src/internal/parser/parser.go:102): the civil date of the instant in the
record's fixed zone. -/
def dateKey (e : LogEntry) : String :=
  formatYMD (civilFromDays
    ((e.Timestamp + e.TzOffset * 1000000000).fdiv 86400000000000 - daysToUnixEpoch))

/-- The alternatives of the `fileExts` regular expression
`\.(htm|html|php|...)` (src/internal/parser/parser.go:22), in source order. -/
def pageExts : List String :=
  ["htm", "html", "php", "php3", "php4", "asp", "aspx", "jsp", "js", "py",
   "shtml", "xhtml", "cgi", "pl", "rb", "erb", "ejs", "phtml", "dhtml", "cfm",
   "do", "action", "axd", "ashx", "asmx", "svc", "faces", "jspx", "xsp", "md",
   "markdown", "liquid", "mustache", "hbs", "wsdl", "wadl", "swagger"]

/-- Whether the `fileExts` pattern matches starting at this position: a dot
followed immediately by one of the listed extensions. -/
def extMatchAt : List Char → Bool
  | [] => false
  | c :: rest => c = '.' && pageExts.any fun ext => ext.toList.isPrefixOf rest

/-- `fileExtRE.FindStringIndex(s) != nil` (src/internal/parser/parser.go:113):
the unanchored regex finds a match anywhere in the string. -/
def isPage (s : String) : Bool := s.toList.tails.any extMatchAt

/-! ## Traffic counters and the statistics accumulator (internal/logstats) -/

/-- `logstats.HitsBytes`. -/
structure HitsBytes where
  Hits : Nat
  Bytes : Nat
  deriving Repr, DecidableEq

/-- `HitsBytes.AddTraffic`. -/
def HitsBytes.AddTraffic (hb : HitsBytes) (bytes : Nat) : HitsBytes :=
  { Hits := hb.Hits + 1, Bytes := hb.Bytes + bytes }

/-- `logstats.HitsBytesVisits`. -/
structure HitsBytesVisits where
  Hits : Nat
  Bytes : Nat
  Visits : Nat
  deriving Repr, DecidableEq

/-- `HitsBytesVisits.AddTraffic`. -/
def HitsBytesVisits.AddTraffic (hbv : HitsBytesVisits) (bytes : Nat)
    (isNewVisit : Bool) : HitsBytesVisits :=
  { Hits := hbv.Hits + 1
    Bytes := hbv.Bytes + bytes
    Visits := if isNewVisit then hbv.Visits + 1 else hbv.Visits }

/-- `logstats.LogStats`: every per-day map of the accumulator.  Day keys are
`"YYYY-MM-DD"` strings. -/
structure LogStats where
  Hits : List (String × Nat)
  Files : List (String × Nat)
  Pages : List (String × Nat)
  Bytes : List (String × Nat)
  Visits : List (String × List (String × Nat))
  CtrVisits : List (String × List (String × Nat))
  FirstVisit : List (String × Int)
  LastVisit : List (String × Int)
  Sites : List (String × List (String × Nat))
  Methods : List (String × List (String × Nat))
  RespCodes : List (String × List (Nat × Nat))
  IPs : List (String × List (String × HitsBytesVisits))
  UserAgents : List (String × List (String × HitsBytesVisits))
  URLPaths : List (String × List (String × List (String × HitsBytes)))
  Referrers : List (String × List (String × HitsBytes))
  deriving Repr, DecidableEq

/-- `logstats.NewLogStats`: every map empty. -/
def NewLogStats : LogStats :=
  { Hits := [], Files := [], Pages := [], Bytes := [], Visits := []
    CtrVisits := [], FirstVisit := [], LastVisit := [], Sites := []
    Methods := [], RespCodes := [], IPs := [], UserAgents := []
    URLPaths := [], Referrers := [] }

/-- A scalar per-day counter increment `m[k] += amt`
(`stats.Hits[date]++`, `stats.Bytes[date] += line.Size`, ...). -/
def bumpA (m : List (String × Nat)) (k : String) (amt : Nat) : List (String × Nat) :=
  setA m k (getA m k 0 + amt)

/-- A nested per-day counter increment: lazily create the inner map for the
day, then `m[date][k] += amt` (the `if _, ok := m[date]; !ok { make }` +
`m[date][k]++` pattern). -/
def bump2 {κ : Type} [DecidableEq κ] (m : List (String × List (κ × Nat)))
    (date : String) (k : κ) (amt : Nat) : List (String × List (κ × Nat)) :=
  let inner := getA m date []
  setA m date (setA inner k (getA inner k 0 + amt))

/-- `LogStats.UpdateIPStats` (get-or-create the `(day, ip)` entry, then
`AddTraffic`). -/
def LogStats.UpdateIPStats (stats : LogStats) (date ip : String) (bytes : Nat)
    (isNewVisit : Bool) : LogStats :=
  let inner := getA stats.IPs date []
  let hbv := getA inner ip ⟨0, 0, 0⟩
  { stats with IPs := setA stats.IPs date (setA inner ip (hbv.AddTraffic bytes isNewVisit)) }

/-- `LogStats.UpdateUserAgentStats`. -/
def LogStats.UpdateUserAgentStats (stats : LogStats) (date userAgent : String)
    (bytes : Nat) (isNewVisit : Bool) : LogStats :=
  let inner := getA stats.UserAgents date []
  let hbv := getA inner userAgent ⟨0, 0, 0⟩
  let upd := setA stats.UserAgents date (setA inner userAgent (hbv.AddTraffic bytes isNewVisit))
  { stats with UserAgents := upd }

/-- `LogStats.UpdateURLStats` (three levels: day, path, method). -/
def LogStats.UpdateURLStats (stats : LogStats) (date URLPath method : String)
    (bytes : Nat) : LogStats :=
  let byPath := getA stats.URLPaths date []
  let byMethod := getA byPath URLPath []
  let hb := getA byMethod method ⟨0, 0⟩
  let upd := setA stats.URLPaths date (setA byPath URLPath (setA byMethod method (hb.AddTraffic bytes)))
  { stats with URLPaths := upd }

/-- `LogStats.UpdateReferrerStats`. -/
def LogStats.UpdateReferrerStats (stats : LogStats) (date Referrer : String)
    (bytes : Nat) : LogStats :=
  let inner := getA stats.Referrers date []
  let hb := getA inner Referrer ⟨0, 0⟩
  let upd := setA stats.Referrers date (setA inner Referrer (hb.AddTraffic bytes))
  { stats with Referrers := upd }

/-- The new-visit test of `parser.ProcessLog`
(src/internal/parser/parser.go:129):
`line.Timestamp.Sub(stats.LastVisit[line.IP]) > visitTimeout`, where a missing
`LastVisit` entry reads as the zero `time.Time`. -/
def isNewVisit (stats : LogStats) (e : LogEntry) : Bool :=
  visitTimeout < timeSub e.Timestamp (getA stats.LastVisit e.IP 0)

/-- The body of the `parser.ProcessLog` scan loop
(src/internal/parser/parser.go:99-171) for one successfully extracted record,
in source order: Hits, Files (code 200), Pages (extension regex), Bytes,
Visits (timeout test against the pre-update `LastVisit`), First/LastVisit
bookkeeping, Sites, Methods, RespCodes, then the four `Update*Stats` calls. -/
def processRecord (stats : LogStats) (e : LogEntry) : LogStats :=
  let date := dateKey e
  let inc := isNewVisit stats e
  let s1 := { stats with Hits := bumpA stats.Hits date 1 }
  let s2 := if e.RespCode = 200 then { s1 with Files := bumpA s1.Files date 1 } else s1
  let s3 := if isPage e.URLPath then { s2 with Pages := bumpA s2.Pages date 1 } else s2
  let s4 := { s3 with Bytes := bumpA s3.Bytes date e.Size }
  let s5 := if inc then { s4 with Visits := bump2 s4.Visits date e.IP 1 } else s4
  let s6 := if (lookupA e.IP s5.FirstVisit).isNone
            then { s5 with FirstVisit := setA s5.FirstVisit e.IP e.Timestamp } else s5
  let s7 := { s6 with LastVisit := setA s6.LastVisit e.IP e.Timestamp }
  let s8 := { s7 with Sites := bump2 s7.Sites date e.IP 1 }
  let s9 := { s8 with Methods := bump2 s8.Methods date e.Method 1 }
  let s10 := { s9 with RespCodes := bump2 s9.RespCodes date e.RespCode 1 }
  let s11 := s10.UpdateIPStats date e.IP e.Size inc
  let s12 := s11.UpdateUserAgentStats date e.UserAgent e.Size inc
  let s13 := s12.UpdateURLStats date e.URLPath e.Method e.Size
  s13.UpdateReferrerStats date e.Referrer e.Size

/-- `parser.ProcessLog`: fold the record stream into a fresh accumulator.
Lines whose extraction fails are logged and skipped without touching the
accumulator, so the statistics are the fold over the successfully extracted
records. -/
def ProcessLog (records : List LogEntry) : LogStats :=
  records.foldl processRecord NewLogStats

/-! ## Country enrichment (internal/countrycache, logstats.LookupCountries)

The geolocation database and DNS are external; an oracle
`geo : String → Option String` stands for `countrycache.lookupCountry`
(`none` = the error branch).  `ParallelLookup`'s fan-out/fan-in produces
exactly one `(visitor, country)` result per submitted visitor and a single
collector serialises all writes, so the completed cache maps each visitor to
its resolved country, with the fallback sentinel on failure.
-/

/-- The completed `countrycache` map: a synchronised visitor → country table. -/
abbrev CountryLookup := List (String × String)

/-- `CountryLookup.ParallelLookup` (src/internal/countrycache/countrycache.go:81-133):
after the batch, every submitted visitor is bound to its resolved country; a
failed resolution or database lookup binds the fallback sentinel `"Vietnam"`
(src/internal/countrycache/countrycache.go:96-99). -/
def ParallelLookup (geo : String → Option String) (visitors : List String) :
    CountryLookup :=
  visitors.foldl (fun m v => setA m v ((geo v).getD "Vietnam")) []

/-- `CountryLookup.Lookup` (src/internal/countrycache/countrycache.go:138-143):
the cached country and whether it was found. -/
def CountryLookup.Lookup (cl : CountryLookup) (visitor : String) : Option String :=
  lookupA visitor cl

/-- One visitor of one day folded into the deduplicated visitor list (the
`seen` set of `logstats.uniqueVisitors` is exactly membership in the list
built so far). -/
def uvInner (ks : List String) (q : String × Nat) : List String :=
  if ks.contains q.1 then ks else ks ++ [q.1]

/-- `logstats.uniqueVisitors` (src/unnamed/part_001:146-159): the distinct
visitor addresses across all days, in first-seen order. -/
def uniqueVisitors (visitorsByDate : List (String × List (String × Nat))) :
    List String :=
  visitorsByDate.foldl (fun keys p => p.2.foldl uvInner keys) []

/-- One visitor step of the `LookupCountries` merge loop
(src/unnamed/part_001:176-188): lazily create the day's country map, then add
the visitor's visit count to its country bucket when the cache lookup
succeeds. -/
def mergeVisitor (cl : CountryLookup) (date : String)
    (ctr : List (String × List (String × Nat))) (q : String × Nat) :
    List (String × List (String × Nat)) :=
  let ctr1 := if (lookupA date ctr).isNone then setA ctr date [] else ctr
  match cl.Lookup q.1 with
  | some country =>
    let inner := getA ctr1 date []
    setA ctr1 date (setA inner country (getA inner country 0 + q.2))
  | none => ctr1

/-- `LogStats.LookupCountries` (src/unnamed/part_001:162-191): resolve every
unique visitor in parallel, then fold the per-day per-address visit counts
into the per-day per-country map.  (The fatal database-open error path aborts
before any mutation and is outside this model.) -/
def LogStats.LookupCountries (stats : LogStats) (geo : String → Option String) :
    LogStats :=
  let cl : CountryLookup := ParallelLookup geo (uniqueVisitors stats.Visits)
  let ctr := stats.Visits.foldl (fun ctr p => p.2.foldl (mergeVisitor cl p.1) ctr)
    stats.CtrVisits
  { stats with CtrVisits := ctr }

/-! ## Aggregation views (src/unnamed/part_001:193-340) -/

/-- `logstats.HFPBVSData`. -/
structure HFPBVSData where
  Category : String
  Hits : Nat
  Files : Nat
  Pages : Nat
  Bytes : Nat
  Visits : Nat
  Sites : Nat
  deriving Repr, DecidableEq

/-- The per-day summary record created for a `Hits` entry `p` by
`AggregatesByMonth` (files/pages/bytes read from the sibling maps, visits
summed over the day's addresses, sites = the day's address cardinality). -/
def monthEntry (stats : LogStats) (p : String × Nat) : HFPBVSData :=
  { Category := monthLabel (p.1.take 7)
    Hits := p.2
    Files := getA stats.Files p.1 0
    Pages := getA stats.Pages p.1 0
    Bytes := getA stats.Bytes p.1 0
    Visits := sumVals (getA stats.Visits p.1 [])
    Sites := (getA stats.Sites p.1 []).length }

/-- The increment branch of the month rollup: keep the month's label, add
every metric of the day. -/
def monthAccum (v w : HFPBVSData) : HFPBVSData :=
  { Category := v.Category
    Hits := v.Hits + w.Hits
    Files := v.Files + w.Files
    Pages := v.Pages + w.Pages
    Bytes := v.Bytes + w.Bytes
    Visits := v.Visits + w.Visits
    Sites := v.Sites + w.Sites }

/-- One day entry folded into the by-month aggregate. -/
def monthStep (stats : LogStats) (aggr : List (String × HFPBVSData))
    (p : String × Nat) : List (String × HFPBVSData) :=
  let monthStr := p.1.take 7
  match lookupA monthStr aggr with
  | none => setA aggr monthStr (monthEntry stats p)
  | some v => setA aggr monthStr (monthAccum v (monthEntry stats p))

/-- `LogStats.AggregatesByMonth` (src/unnamed/part_001:220-253): group every
`Hits` day key by its 7-character year-month prefix and sum
hits/files/pages/bytes, the day's visit total and the day's site cardinality.
(Go's `dateStr[:7]` panics on a key shorter than 7 bytes; `String.take`
truncates instead — the accumulator only ever produces 10-character ASCII
keys, for which the two agree.) -/
def LogStats.AggregatesByMonth (stats : LogStats) : List (String × HFPBVSData) :=
  stats.Hits.foldl (monthStep stats) []

/-- The `lastKey` scan of `logstats.recentKeys` (src/unnamed/part_001:258-263):
the lexicographically greatest `Hits` day key (`""` when there is none). -/
def lastKeyOf (stats : LogStats) : String :=
  stats.Hits.foldl (fun lastKey p => if strLt lastKey p.1 then p.1 else lastKey) ""

/-- `LogStats.recentKeys` (src/unnamed/part_001:256-280): parse the greatest
day key (a malformed key silently degrades to the zero time), step one day
forward, then one month back, and keep the `Hits` day keys inside the
`[firstKey, lastKey)` window under string comparison. -/
def LogStats.recentKeys (stats : LogStats) : List String :=
  let lastKey := lastKeyOf stats
  let lastTime := addDate (parseDateD lastKey) 0 0 1
  let firstTime := addDate lastTime 0 (-1) 0
  let firstKey := formatYMD firstTime
  let lastKey' := formatYMD lastTime
  (keysA stats.Hits).filter fun key => strLe firstKey key && strLt key lastKey'

/-- `LogStats.RecentAggregates` (src/unnamed/part_001:283-306): one summary
record per day key in the trailing window. -/
def LogStats.RecentAggregates (stats : LogStats) : List (String × HFPBVSData) :=
  stats.recentKeys.foldl
    (fun aggr dateStr =>
      let rec0 : HFPBVSData :=
        ⟨formatMonthDay (parseDateD dateStr), getA stats.Hits dateStr 0,
          getA stats.Files dateStr 0, getA stats.Pages dateStr 0,
          getA stats.Bytes dateStr 0, 0, (getA stats.Sites dateStr []).length⟩
      setA aggr dateStr { rec0 with Visits := sumVals (getA stats.Visits dateStr []) })
    []

/-- `LogStats.MethRespAggregates` (src/unnamed/part_001:309-326): sum method
hit counts (skipping the `"-"` placeholder) and response-code hit counts over
the trailing window. -/
def LogStats.MethRespAggregates (stats : LogStats) :
    List (String × Nat) × List (Nat × Nat) :=
  let daysKeys := stats.recentKeys
  daysKeys.foldl
    (fun acc date =>
      let aggr := (getA stats.Methods date []).foldl
        (fun a q => if q.1 ≠ "-" then setA a q.1 (getA a q.1 0 + q.2) else a) acc.1
      let aggr2 := (getA stats.RespCodes date []).foldl
        (fun a q => setA a q.1 (getA a q.1 0 + q.2)) acc.2
      (aggr, aggr2))
    ([], [])

/-- `LogStats.CountryAggregates` (src/unnamed/part_001:329-340): sum country
visit counts over the trailing window. -/
def LogStats.CountryAggregates (stats : LogStats) : List (String × Nat) :=
  stats.recentKeys.foldl
    (fun aggr date =>
      (getA stats.CtrVisits date []).foldl
        (fun a q => setA a q.1 (getA a q.1 0 + q.2)) aggr)
    []

/-! ## How one record changes each map -/

theorem processRecord_Hits (s : LogStats) (e : LogEntry) :
    (processRecord s e).Hits = bumpA s.Hits (dateKey e) 1 := by
  simp only [processRecord, LogStats.UpdateIPStats, LogStats.UpdateUserAgentStats,
    LogStats.UpdateURLStats, LogStats.UpdateReferrerStats]
  split_ifs <;> rfl

theorem processRecord_Files (s : LogStats) (e : LogEntry) :
    (processRecord s e).Files =
      if e.RespCode = 200 then bumpA s.Files (dateKey e) 1 else s.Files := by
  simp only [processRecord, LogStats.UpdateIPStats, LogStats.UpdateUserAgentStats,
    LogStats.UpdateURLStats, LogStats.UpdateReferrerStats]
  split_ifs <;> rfl

theorem processRecord_Pages (s : LogStats) (e : LogEntry) :
    (processRecord s e).Pages =
      if isPage e.URLPath then bumpA s.Pages (dateKey e) 1 else s.Pages := by
  simp only [processRecord, LogStats.UpdateIPStats, LogStats.UpdateUserAgentStats,
    LogStats.UpdateURLStats, LogStats.UpdateReferrerStats]
  split_ifs <;> rfl

theorem processRecord_Bytes (s : LogStats) (e : LogEntry) :
    (processRecord s e).Bytes = bumpA s.Bytes (dateKey e) e.Size := by
  simp only [processRecord, LogStats.UpdateIPStats, LogStats.UpdateUserAgentStats,
    LogStats.UpdateURLStats, LogStats.UpdateReferrerStats]
  split_ifs <;> rfl

theorem processRecord_Visits (s : LogStats) (e : LogEntry) :
    (processRecord s e).Visits =
      if isNewVisit s e then bump2 s.Visits (dateKey e) e.IP 1 else s.Visits := by
  simp only [processRecord, LogStats.UpdateIPStats, LogStats.UpdateUserAgentStats,
    LogStats.UpdateURLStats, LogStats.UpdateReferrerStats]
  split_ifs <;> rfl

theorem processRecord_LastVisit (s : LogStats) (e : LogEntry) :
    (processRecord s e).LastVisit = setA s.LastVisit e.IP e.Timestamp := by
  simp only [processRecord, LogStats.UpdateIPStats, LogStats.UpdateUserAgentStats,
    LogStats.UpdateURLStats, LogStats.UpdateReferrerStats]
  split_ifs <;> rfl

theorem processRecord_IPs (s : LogStats) (e : LogEntry) :
    (processRecord s e).IPs =
      setA s.IPs (dateKey e)
        (setA (getA s.IPs (dateKey e) []) e.IP
          ((getA (getA s.IPs (dateKey e) []) e.IP ⟨0, 0, 0⟩).AddTraffic e.Size
            (isNewVisit s e))) := by
  simp only [processRecord, LogStats.UpdateIPStats, LogStats.UpdateUserAgentStats,
    LogStats.UpdateURLStats, LogStats.UpdateReferrerStats]
  split_ifs <;> rfl

theorem processRecord_UserAgents (s : LogStats) (e : LogEntry) :
    (processRecord s e).UserAgents =
      setA s.UserAgents (dateKey e)
        (setA (getA s.UserAgents (dateKey e) []) e.UserAgent
          ((getA (getA s.UserAgents (dateKey e) []) e.UserAgent ⟨0, 0, 0⟩).AddTraffic e.Size
            (isNewVisit s e))) := by
  simp only [processRecord, LogStats.UpdateIPStats, LogStats.UpdateUserAgentStats,
    LogStats.UpdateURLStats, LogStats.UpdateReferrerStats]
  split_ifs <;> rfl

theorem processRecord_URLPaths (s : LogStats) (e : LogEntry) :
    (processRecord s e).URLPaths =
      setA s.URLPaths (dateKey e)
        (setA (getA s.URLPaths (dateKey e) []) e.URLPath
          (setA (getA (getA s.URLPaths (dateKey e) []) e.URLPath []) e.Method
            ((getA (getA (getA s.URLPaths (dateKey e) []) e.URLPath []) e.Method
              ⟨0, 0⟩).AddTraffic e.Size))) := by
  simp only [processRecord, LogStats.UpdateIPStats, LogStats.UpdateUserAgentStats,
    LogStats.UpdateURLStats, LogStats.UpdateReferrerStats]
  split_ifs <;> rfl

theorem processRecord_Referrers (s : LogStats) (e : LogEntry) :
    (processRecord s e).Referrers =
      setA s.Referrers (dateKey e)
        (setA (getA s.Referrers (dateKey e) []) e.Referrer
          ((getA (getA s.Referrers (dateKey e) []) e.Referrer ⟨0, 0⟩).AddTraffic e.Size)) := by
  simp only [processRecord, LogStats.UpdateIPStats, LogStats.UpdateUserAgentStats,
    LogStats.UpdateURLStats, LogStats.UpdateReferrerStats]
  split_ifs <;> rfl

theorem getA_bumpA (m : List (String × Nat)) (k d : String) (amt : Nat) :
    getA (bumpA m k amt) d 0 = getA m d 0 + if d = k then amt else 0 := by
  by_cases h : d = k <;> simp [bumpA, getA_setA, h]

/-! ## C7 — hits dominate files and pages -/

/-- The per-day domination invariant: on every day, files and pages never
exceed hits. -/
def HitsDominate (s : LogStats) : Prop :=
  ∀ d : String, getA s.Files d 0 ≤ getA s.Hits d 0 ∧ getA s.Pages d 0 ≤ getA s.Hits d 0

theorem hitsDominate_processRecord {s : LogStats} (e : LogEntry)
    (h : HitsDominate s) : HitsDominate (processRecord s e) := by
  intro d
  obtain ⟨h1, h2⟩ := h d
  rw [processRecord_Files, processRecord_Pages, processRecord_Hits]
  constructor
  · split_ifs with hc
    · rw [getA_bumpA, getA_bumpA]
      split_ifs <;> omega
    · rw [getA_bumpA]
      split_ifs <;> omega
  · split_ifs with hc
    · rw [getA_bumpA, getA_bumpA]
      split_ifs <;> omega
    · rw [getA_bumpA]
      split_ifs <;> omega

theorem hitsDominate_foldl (l : List LogEntry) (s : LogStats)
    (h : HitsDominate s) : HitsDominate (l.foldl processRecord s) := by
  induction l generalizing s with
  | nil => exact h
  | cons e rest ih => exact ih _ (hitsDominate_processRecord e h)

/-- C7: for every input record stream and every day key, the accumulated hit
count dominates both the file count and the page count — every `Files` or
`Pages` increment in the `ProcessLog` loop is accompanied by the
unconditional `Hits` increment for the same day key. -/
theorem C7_hits_dominate (records : List LogEntry) (d : String) :
    getA (ProcessLog records).Files d 0 ≤ getA (ProcessLog records).Hits d 0 ∧
    getA (ProcessLog records).Pages d 0 ≤ getA (ProcessLog records).Hits d 0 := by
  refine hitsDominate_foldl records NewLogStats ?_ d
  intro d'
  simp [NewLogStats]

/-! ## C10 — page classification is an unanchored substring match -/

theorem isPrefixOf_eq_true_iff (l l' : List Char) :
    l.isPrefixOf l' = true ↔ ∃ t, l ++ t = l' := by
  induction l generalizing l' with
  | nil => simp [List.isPrefixOf]
  | cons a as ih =>
    cases l' with
    | nil => simp [List.isPrefixOf]
    | cons b bs =>
      simp only [List.isPrefixOf, Bool.and_eq_true, beq_iff_eq, ih, List.cons_append,
        List.cons.injEq]
      constructor
      · rintro ⟨hab, t, ht⟩
        exact ⟨t, hab, ht⟩
      · rintro ⟨t, hab, ht⟩
        exact ⟨hab, t, ht⟩

theorem extMatchAt_eq_true_iff (cs : List Char) :
    extMatchAt cs = true ↔
      ∃ ext ∈ pageExts, ∃ post, cs = '.' :: (ext.toList ++ post) := by
  cases cs with
  | nil =>
    simp only [extMatchAt, List.any_eq_true]
    constructor
    · intro h; cases h
    · rintro ⟨ext, _, post, h⟩; cases h
  | cons c rest =>
    simp only [extMatchAt, Bool.and_eq_true, decide_eq_true_eq, List.any_eq_true,
      isPrefixOf_eq_true_iff]
    constructor
    · rintro ⟨hc, ext, hext, t, ht⟩
      exact ⟨ext, hext, t, by rw [hc, ht]⟩
    · rintro ⟨ext, hext, post, h⟩
      injection h with h1 h2
      exact ⟨h1, ext, hext, post, h2.symm⟩

/-- C10: the page-classification regex `fileExts` is applied unanchored
(`FindStringIndex`), so a record counts as a page exactly when a dot followed
by one of the listed extensions occurs *anywhere* in the URL path — not only
as the final extension.  In particular `"/data.json"` is a page (via the
`js` alternative) and `"/doc.html.png"` is a page (via `html`), and `Pages`
is incremented by exactly this test. -/
theorem C10_page_substring_match :
    (∀ s : String, isPage s = true ↔
      ∃ pre : List Char, ∃ ext ∈ pageExts, ∃ post : List Char,
        s.toList = pre ++ '.' :: (ext.toList ++ post)) ∧
    isPage "/data.json" = true ∧
    isPage "/doc.html.png" = true ∧
    (∀ (stats : LogStats) (e : LogEntry),
      getA (processRecord stats e).Pages (dateKey e) 0 =
        getA stats.Pages (dateKey e) 0 + if isPage e.URLPath then 1 else 0) := by
  refine ⟨?_, by decide, by decide, ?_⟩
  · intro s
    simp only [isPage, List.any_eq_true]
    constructor
    · rintro ⟨tail, htail, hmatch⟩
      rw [List.mem_tails] at htail
      obtain ⟨pre, hpre⟩ := htail
      rw [extMatchAt_eq_true_iff] at hmatch
      obtain ⟨ext, hext, post, hpost⟩ := hmatch
      exact ⟨pre, ext, hext, post, by rw [← hpre, hpost]⟩
    · rintro ⟨pre, ext, hext, post, hs⟩
      refine ⟨'.' :: (ext.toList ++ post), ?_, ?_⟩
      · rw [List.mem_tails]
        exact ⟨pre, hs.symm⟩
      · rw [extMatchAt_eq_true_iff]
        exact ⟨ext, hext, post, rfl⟩
  · intro stats e
    rw [processRecord_Pages]
    split_ifs with h <;> simp [getA_bumpA]

/-! ## C2 — first record from an address -/

/-- A raw log line whose timestamp is exactly Go's zero time: it parses
successfully under `02/Jan/2006:15:04:05 -0700`. -/
def rawZeroTime : RawLine :=
  { address := "203.0.113.7", timestamp := "01/Jan/0001:00:00:00 +0000"
    method := "GET", urlpath := "/index.html", respCode := "200", size := "0"
    referrer := "-", userAgent := "curl/8.0" }

/-- The record extracted from `rawZeroTime`. -/
def entryZeroTime : LogEntry :=
  { IP := "203.0.113.7", Timestamp := 0, TzOffset := 0, Method := "GET"
    URLPath := "/index.html", RespCode := 200, Size := 0, Referrer := "-"
    UserAgent := "curl/8.0" }

theorem getA_bump2_self {κ : Type} [DecidableEq κ]
    (m : List (String × List (κ × Nat))) (date : String) (k : κ) (amt : Nat) :
    getA (getA (bump2 m date k amt) date []) k 0 = getA (getA m date []) k 0 + amt := by
  simp [bump2]

/-- C2 fails as stated: `stats.LastVisit[line.IP]` reads the zero `time.Time`
for a never-seen address, and a record timestamped at (or within 600 seconds
after) the zero time — extractable from a real log line, `rawZeroTime` — does
*not* satisfy `Timestamp.Sub(zero) > visitTimeout`.  Its address's first
record increments no visit counter and `isNewVisit` is false. -/
theorem C2_counterexample :
    LogEntry.Extract rawZeroTime = some entryZeroTime ∧
    lookupA entryZeroTime.IP NewLogStats.LastVisit = none ∧
    isNewVisit NewLogStats entryZeroTime = false ∧
    (ProcessLog [entryZeroTime]).Visits = [] := by
  refine ⟨by decide, by decide, by decide, by decide⟩

/-- C2 (amended): for every accumulator state, a record from an address with
no last-seen timestamp recorded yet is counted as a new visit — the per-day
per-address visit counter is incremented and `isNewVisit` is true — provided
the record's timestamp lies more than 600 seconds after the zero `time.Time`
(0001-01-01 00:00:00 UTC), which holds for every realistic timestamp. -/
theorem C2_first_record_new_visit (stats : LogStats) (e : LogEntry)
    (hfirst : lookupA e.IP stats.LastVisit = none)
    (hts : visitTimeout < e.Timestamp) :
    isNewVisit stats e = true ∧
    getA (getA (processRecord stats e).Visits (dateKey e) []) e.IP 0 =
      getA (getA stats.Visits (dateKey e) []) e.IP 0 + 1 := by
  have hnew : isNewVisit stats e = true := by
    rw [isNewVisit]
    rw [getA, hfirst]
    simp only [Option.getD_none, decide_eq_true_eq]
    rw [timeSub_gt_visitTimeout]
    omega
  refine ⟨hnew, ?_⟩
  rw [processRecord_Visits, if_pos hnew, getA_bump2_self]

/-- A realistic first record (timestamp `10/Oct/2000:13:55:36 -0700`). -/
def entryFirst : LogEntry :=
  { IP := "198.51.100.9", Timestamp := 63106808136000000000, TzOffset := -25200
    Method := "GET", URLPath := "/", RespCode := 200, Size := 10, Referrer := "-"
    UserAgent := "ua" }

/-- A record of the same address exactly 600 seconds later. -/
def entrySecond : LogEntry :=
  { entryFirst with Timestamp := entryFirst.Timestamp + 600000000000 }

theorem C2_first_record_new_visit_witness :
    (lookupA entryFirst.IP NewLogStats.LastVisit = none ∧
      visitTimeout < entryFirst.Timestamp) ∧
    (isNewVisit NewLogStats entryFirst = true ∧
      getA (getA (processRecord NewLogStats entryFirst).Visits (dateKey entryFirst) [])
          entryFirst.IP 0 =
        getA (getA NewLogStats.Visits (dateKey entryFirst) []) entryFirst.IP 0 + 1) :=
  ⟨⟨by decide, by decide⟩,
    C2_first_record_new_visit NewLogStats entryFirst (by decide) (by decide)⟩

/-! ## C3 — the 600-second boundary is a strict comparison -/

theorem foldl_LastVisit_other (l : List LogEntry) (s : LogStats) (ip : String)
    (h : ∀ e ∈ l, e.IP ≠ ip) :
    getA (l.foldl processRecord s).LastVisit ip 0 = getA s.LastVisit ip 0 := by
  induction l generalizing s with
  | nil => rfl
  | cons e rest ih =>
    have hne : e.IP ≠ ip := h e (List.mem_cons_self e rest)
    rw [List.foldl_cons, ih _ fun e' he' => h e' (List.mem_cons_of_mem e he')]
    rw [processRecord_LastVisit, getA, lookupA_setA_ne _ _ _ _ (Ne.symm hne)]
    rfl

/-- C3: between two consecutive records of the same address — any records of
*other* addresses may sit between them in the stream — the new-visit test of
the second record succeeds exactly when the timestamp gap strictly exceeds
600 seconds.  A gap of exactly 600 seconds is not a new visit; any strictly
larger gap is (`>` in `line.Timestamp.Sub(stats.LastVisit[line.IP]) >
visitTimeout`, with `LastVisit` updated unconditionally by the first
record). -/
theorem C3_gap_boundary_strict (s : LogStats) (e1 : LogEntry)
    (mid : List LogEntry) (e2 : LogEntry)
    (hip : e2.IP = e1.IP) (hmid : ∀ e ∈ mid, e.IP ≠ e1.IP) :
    (isNewVisit (mid.foldl processRecord (processRecord s e1)) e2 = true ↔
      visitTimeout < e2.Timestamp - e1.Timestamp) := by
  have hlast : getA (mid.foldl processRecord (processRecord s e1)).LastVisit e1.IP 0 =
      e1.Timestamp := by
    rw [foldl_LastVisit_other mid _ e1.IP hmid, processRecord_LastVisit, getA,
      lookupA_setA_self]
    rfl
  rw [isNewVisit, hip, hlast, decide_eq_true_eq, timeSub_gt_visitTimeout]

theorem C3_gap_boundary_strict_witness :
    (entrySecond.IP = entryFirst.IP ∧
      (∀ e ∈ ([] : List LogEntry), e.IP ≠ entryFirst.IP)) ∧
    (isNewVisit (List.foldl processRecord (processRecord NewLogStats entryFirst) [])
        entrySecond = true ↔
      visitTimeout < entrySecond.Timestamp - entryFirst.Timestamp) :=
  ⟨⟨rfl, by simp⟩,
    C3_gap_boundary_strict NewLogStats entryFirst [] entrySecond rfl (by simp)⟩

/-! ## C8 — the `-` size sentinel and size-parse failure -/

/-- C8: a size field of exactly `"-"` is extracted as size `0` and a record of
size `0` contributes `0` to every byte counter it touches (the day's `Bytes`
counter and the per-IP, per-user-agent, per-URL-path/method and per-referrer
byte totals); a size field that is neither `"-"` nor a parseable `uint64`
makes `unmarshalSize` fail, which fails the whole line (extraction returns
nothing).  The extraction driver itself is not in src/ and is modelled from
the spec (see `LogEntry.Extract`); `unmarshalSize` is from the source. -/
theorem C8_size_dash_zero_else_fail (r : RawLine) (ts off : Int) (code : Nat)
    (hts : parseTimestamp r.timestamp = some (ts, off))
    (hcode : parseUint 16 r.respCode = some code) :
    (r.size = "-" → unmarshalSize r.size = some 0 ∧
      ∃ e, LogEntry.Extract r = some e ∧ e.Size = 0) ∧
    (unmarshalSize r.size = none → LogEntry.Extract r = none) ∧
    (∀ (stats : LogStats) (e : LogEntry), e.Size = 0 →
      getA (processRecord stats e).Bytes (dateKey e) 0 =
        getA stats.Bytes (dateKey e) 0 ∧
      (getA (getA (processRecord stats e).IPs (dateKey e) []) e.IP ⟨0, 0, 0⟩).Bytes =
        (getA (getA stats.IPs (dateKey e) []) e.IP ⟨0, 0, 0⟩).Bytes ∧
      (getA (getA (processRecord stats e).UserAgents (dateKey e) [])
          e.UserAgent ⟨0, 0, 0⟩).Bytes =
        (getA (getA stats.UserAgents (dateKey e) []) e.UserAgent ⟨0, 0, 0⟩).Bytes ∧
      (getA (getA (getA (processRecord stats e).URLPaths (dateKey e) [])
          e.URLPath []) e.Method ⟨0, 0⟩).Bytes =
        (getA (getA (getA stats.URLPaths (dateKey e) []) e.URLPath [])
          e.Method ⟨0, 0⟩).Bytes ∧
      (getA (getA (processRecord stats e).Referrers (dateKey e) [])
          e.Referrer ⟨0, 0⟩).Bytes =
        (getA (getA stats.Referrers (dateKey e) []) e.Referrer ⟨0, 0⟩).Bytes) := by
  refine ⟨?_, ?_, ?_⟩
  · intro h
    have hs : unmarshalSize r.size = some 0 := by rw [unmarshalSize, if_pos h]
    refine ⟨hs, ⟨r.address, ts, off, r.method, (unmarshalURLPath r.urlpath).1, code, 0,
      (unmarshalReferrer r.referrer).1, r.userAgent⟩, ?_, rfl⟩
    simp [LogEntry.Extract, hts, hcode, hs]
  · intro h
    simp [LogEntry.Extract, hts, hcode, h]
  · intro stats e h
    refine ⟨?_, ?_, ?_, ?_, ?_⟩
    · rw [processRecord_Bytes, getA_bumpA, h]
      split_ifs <;> omega
    · rw [processRecord_IPs]
      simp [HitsBytesVisits.AddTraffic, h]
    · rw [processRecord_UserAgents]
      simp [HitsBytesVisits.AddTraffic, h]
    · rw [processRecord_URLPaths]
      simp [HitsBytes.AddTraffic, h]
    · rw [processRecord_Referrers]
      simp [HitsBytes.AddTraffic, h]

/-- A raw line with the `-` size sentinel. -/
def rawDashSize : RawLine :=
  { address := "198.51.100.9", timestamp := "10/Oct/2000:13:55:36 -0700"
    method := "GET", urlpath := "/index.html", respCode := "404", size := "-"
    referrer := "-", userAgent := "ua" }

theorem C8_size_dash_zero_else_fail_witness :
    (parseTimestamp rawDashSize.timestamp = some (63106808136000000000, -25200) ∧
      parseUint 16 rawDashSize.respCode = some 404) ∧
    ((rawDashSize.size = "-" → unmarshalSize rawDashSize.size = some 0 ∧
      ∃ e, LogEntry.Extract rawDashSize = some e ∧ e.Size = 0) ∧
    (unmarshalSize rawDashSize.size = none → LogEntry.Extract rawDashSize = none) ∧
    (∀ (stats : LogStats) (e : LogEntry), e.Size = 0 →
      getA (processRecord stats e).Bytes (dateKey e) 0 =
        getA stats.Bytes (dateKey e) 0 ∧
      (getA (getA (processRecord stats e).IPs (dateKey e) []) e.IP ⟨0, 0, 0⟩).Bytes =
        (getA (getA stats.IPs (dateKey e) []) e.IP ⟨0, 0, 0⟩).Bytes ∧
      (getA (getA (processRecord stats e).UserAgents (dateKey e) [])
          e.UserAgent ⟨0, 0, 0⟩).Bytes =
        (getA (getA stats.UserAgents (dateKey e) []) e.UserAgent ⟨0, 0, 0⟩).Bytes ∧
      (getA (getA (getA (processRecord stats e).URLPaths (dateKey e) [])
          e.URLPath []) e.Method ⟨0, 0⟩).Bytes =
        (getA (getA (getA stats.URLPaths (dateKey e) []) e.URLPath [])
          e.Method ⟨0, 0⟩).Bytes ∧
      (getA (getA (processRecord stats e).Referrers (dateKey e) [])
          e.Referrer ⟨0, 0⟩).Bytes =
        (getA (getA stats.Referrers (dateKey e) []) e.Referrer ⟨0, 0⟩).Bytes)) :=
  ⟨⟨by decide, by decide⟩,
    C8_size_dash_zero_else_fail rawDashSize 63106808136000000000 (-25200) 404 (by decide) (by decide)⟩

/-! ## C9 — percent-decode failure is non-fatal -/

/-- C9: when percent-decoding of the URL path or referrer fails, the field
falls back to the raw undecoded value (the value `unmarshalURLPath` /
`unmarshalReferrer` return alongside their error) and extraction of the line
still succeeds; a decode failure of these two fields never skips the line.
The extraction driver is modelled from the spec (see `LogEntry.Extract`); the
two unmarshallers are from the source. -/
theorem C9_decode_failure_nonfatal (r : RawLine) (ts off : Int) (code size : Nat)
    (hts : parseTimestamp r.timestamp = some (ts, off))
    (hcode : parseUint 16 r.respCode = some code)
    (hsize : unmarshalSize r.size = some size) :
    (LogEntry.Extract r).isSome = true ∧
    (pathUnescape r.urlpath = none →
      ∃ e, LogEntry.Extract r = some e ∧ e.URLPath = r.urlpath) ∧
    (pathUnescape r.referrer = none →
      ∃ e, LogEntry.Extract r = some e ∧ e.Referrer = r.referrer) := by
  refine ⟨?_, ?_, ?_⟩
  · simp [LogEntry.Extract, hts, hcode, hsize]
  · intro h
    refine ⟨⟨r.address, ts, off, r.method, (unmarshalURLPath r.urlpath).1, code, size,
      (unmarshalReferrer r.referrer).1, r.userAgent⟩, ?_, ?_⟩
    · simp [LogEntry.Extract, hts, hcode, hsize]
    · simp [unmarshalURLPath, h]
  · intro h
    refine ⟨⟨r.address, ts, off, r.method, (unmarshalURLPath r.urlpath).1, code, size,
      (unmarshalReferrer r.referrer).1, r.userAgent⟩, ?_, ?_⟩
    · simp [LogEntry.Extract, hts, hcode, hsize]
    · simp [unmarshalReferrer, h]

/-- A raw line whose URL path and referrer both fail percent-decoding. -/
def rawBadEscape : RawLine :=
  { address := "198.51.100.9", timestamp := "10/Oct/2000:13:55:36 -0700"
    method := "GET", urlpath := "/a%zzb", respCode := "200", size := "123"
    referrer := "http://e/%", userAgent := "ua" }

theorem C9_decode_failure_nonfatal_witness :
    (parseTimestamp rawBadEscape.timestamp = some (63106808136000000000, -25200) ∧
      parseUint 16 rawBadEscape.respCode = some 200 ∧
      unmarshalSize rawBadEscape.size = some 123) ∧
    ((LogEntry.Extract rawBadEscape).isSome = true ∧
    (pathUnescape rawBadEscape.urlpath = none →
      ∃ e, LogEntry.Extract rawBadEscape = some e ∧ e.URLPath = rawBadEscape.urlpath) ∧
    (pathUnescape rawBadEscape.referrer = none →
      ∃ e, LogEntry.Extract rawBadEscape = some e ∧
        e.Referrer = rawBadEscape.referrer)) :=
  ⟨⟨by decide, by decide, by decide⟩,
    C9_decode_failure_nonfatal rawBadEscape 63106808136000000000 (-25200) 200 123 (by decide) (by decide) (by decide)⟩

/-! ## C4 — the by-month rollup partitions the per-day data -/

theorem sumA_monthStep_foldl (stats : LogStats) (f : HFPBVSData → Nat)
    (hadd : ∀ v w, f (monthAccum v w) = f v + f w) :
    ∀ (es : List (String × Nat)) (aggr : List (String × HFPBVSData)),
      sumA f (es.foldl (monthStep stats) aggr) =
        sumA f aggr + (es.map fun p => f (monthEntry stats p)).sum := by
  intro es
  induction es with
  | nil => intro aggr; simp
  | cons p rest ih =>
    intro aggr
    rw [List.foldl_cons, ih]
    have hstep : sumA f (monthStep stats aggr p) =
        sumA f aggr + f (monthEntry stats p) := by
      rw [monthStep]
      cases hlk : lookupA (p.1.take 7) aggr with
      | none => exact sumA_setA_of_lookupA_none f aggr _ _ hlk
      | some v =>
        show sumA f (setA aggr (p.1.take 7) (monthAccum v (monthEntry stats p))) =
          sumA f aggr + f (monthEntry stats p)
        have h2 := sumA_setA_of_lookupA_some f aggr (p.1.take 7)
          (monthAccum v (monthEntry stats p)) v hlk
        rw [hadd] at h2
        omega
    rw [hstep, List.map_cons, List.sum_cons]
    omega

/-- C4: the by-month rollup is a lossless partition of the per-day data: its
hits, files, pages, bytes and visits, summed over all months, equal the
corresponding per-day counters summed over all day keys present in `Hits`
(the `Nodup` hypothesis is the well-formedness of a Go map's key set). -/
theorem C4_month_rollup_partition (stats : LogStats)
    (hnd : (keysA stats.Hits).Nodup) :
    sumA (fun v => v.Hits) stats.AggregatesByMonth = sumVals stats.Hits ∧
    sumA (fun v => v.Files) stats.AggregatesByMonth =
      (stats.Hits.map fun p => getA stats.Files p.1 0).sum ∧
    sumA (fun v => v.Pages) stats.AggregatesByMonth =
      (stats.Hits.map fun p => getA stats.Pages p.1 0).sum ∧
    sumA (fun v => v.Bytes) stats.AggregatesByMonth =
      (stats.Hits.map fun p => getA stats.Bytes p.1 0).sum ∧
    sumA (fun v => v.Visits) stats.AggregatesByMonth =
      (stats.Hits.map fun p => sumVals (getA stats.Visits p.1 [])).sum := by
  refine ⟨?_, ?_, ?_, ?_, ?_⟩ <;>
    rw [LogStats.AggregatesByMonth,
      sumA_monthStep_foldl stats _ (fun v w => rfl) stats.Hits []] <;>
    simp [monthEntry, sumVals, sumA]

theorem C4_month_rollup_partition_witness :
    (keysA (NewLogStats.Hits)).Nodup ∧
    (sumA (fun v => v.Hits) NewLogStats.AggregatesByMonth = sumVals NewLogStats.Hits ∧
    sumA (fun v => v.Files) NewLogStats.AggregatesByMonth =
      (NewLogStats.Hits.map fun p => getA NewLogStats.Files p.1 0).sum ∧
    sumA (fun v => v.Pages) NewLogStats.AggregatesByMonth =
      (NewLogStats.Hits.map fun p => getA NewLogStats.Pages p.1 0).sum ∧
    sumA (fun v => v.Bytes) NewLogStats.AggregatesByMonth =
      (NewLogStats.Hits.map fun p => getA NewLogStats.Bytes p.1 0).sum ∧
    sumA (fun v => v.Visits) NewLogStats.AggregatesByMonth =
      (NewLogStats.Hits.map fun p => sumVals (getA NewLogStats.Visits p.1 [])).sum) :=
  ⟨by decide, C4_month_rollup_partition NewLogStats (by decide)⟩

/-! ## C5 — the trailing window -/

theorem listLtb_not_lt_trans {a b c : List Char} (h1 : listLtb b a = false)
    (h2 : listLtb c b = false) : listLtb c a = false := by
  cases hca : listLtb c a with
  | false => rfl
  | true =>
    rcases listLtb_total a b with h | h | h
    · rw [listLtb_trans hca h] at h2
      exact h2
    · subst h
      rw [hca] at h2
      exact h2
    · rw [h] at h1
      exact h1

theorem strLe_trans {a b c : String} (h1 : strLe a b = true) (h2 : strLe b c = true) :
    strLe a c = true := by
  simp only [strLe, strLt, Bool.not_eq_true'] at h1 h2 ⊢
  exact listLtb_not_lt_trans h1 h2

/-- The step of the `lastKey` scan. -/
def lastKeyStep (lastKey : String) (p : String × Nat) : String :=
  if strLt lastKey p.1 then p.1 else lastKey

theorem lastKeyStep_le_left (a : String) (p : String × Nat) :
    strLe a (lastKeyStep a p) = true := by
  rw [lastKeyStep]
  split_ifs with h
  · simp only [strLe, Bool.not_eq_true']
    rw [strLt] at h ⊢
    exact listLtb_asymm h
  · exact strLe_refl a

theorem lastKeyStep_le_right (a : String) (p : String × Nat) :
    strLe p.1 (lastKeyStep a p) = true := by
  rw [lastKeyStep]
  split_ifs with h
  · exact strLe_refl _
  · simp only [strLe]
    rw [Bool.not_eq_true']
    rw [strLt] at h ⊢
    simp only [Bool.not_eq_true] at h
    exact h

theorem foldl_lastKeyStep_mono (es : List (String × Nat)) :
    ∀ a : String, strLe a (es.foldl lastKeyStep a) = true := by
  induction es with
  | nil => intro a; exact strLe_refl a
  | cons p rest ih =>
    intro a
    rw [List.foldl_cons]
    exact strLe_trans (lastKeyStep_le_left a p) (ih (lastKeyStep a p))

theorem foldl_lastKeyStep_ge (es : List (String × Nat)) :
    ∀ (a : String) (p : String × Nat), p ∈ es →
      strLe p.1 (es.foldl lastKeyStep a) = true := by
  induction es with
  | nil => intro a p hp; cases hp
  | cons q rest ih =>
    intro a p hp
    rw [List.foldl_cons]
    rcases List.mem_cons.mp hp with h | h
    · subst h
      exact strLe_trans (lastKeyStep_le_right a p) (foldl_lastKeyStep_mono rest _)
    · exact ih _ p h

theorem foldl_lastKeyStep_mem (es : List (String × Nat)) :
    ∀ a : String, es.foldl lastKeyStep a = a ∨ es.foldl lastKeyStep a ∈ keysA es := by
  induction es with
  | nil => intro a; left; rfl
  | cons q rest ih =>
    intro a
    rw [List.foldl_cons]
    rcases ih (lastKeyStep a q) with h | h
    · rw [h, lastKeyStep]
      split_ifs with hq
      · right
        exact List.mem_cons_self q.1 (keysA rest)
      · left; rfl
    · right
      exact List.mem_cons_of_mem q.1 h

theorem lastKeyOf_eq_foldl (stats : LogStats) :
    lastKeyOf stats = stats.Hits.foldl lastKeyStep "" := by
  rw [lastKeyOf]
  congr 1

/-- The trailing-window selection as the claim words it: the window start is
`latestDay − 1 month + 1 day`, the two `AddDate` steps applied in that order
(first one month back, then one day forward).  To be compared with
`LogStats.recentKeys`, which steps one day forward *first* and one month back
second. -/
def claimRecentKeys (stats : LogStats) : List String :=
  let lastKey := lastKeyOf stats
  let firstTime := addDate (addDate (parseDateD lastKey) 0 (-1) 0) 0 0 1
  let lastTime := addDate (parseDateD lastKey) 0 0 1
  let firstKey := formatYMD firstTime
  let lastKey' := formatYMD lastTime
  (keysA stats.Hits).filter fun key => strLe firstKey key && strLt key lastKey'

/-- A state whose latest day key, 2024-03-31, makes the two operation orders
disagree: (2024-03-31 + 1 day) − 1 month = 2024-03-01, while
(2024-03-31 − 1 month) + 1 day = (2024-02-31 ⇒ 2024-03-02) + 1 day
= 2024-03-03. -/
def statsMarch : LogStats :=
  { NewLogStats with Hits := [("2024-03-31", 1), ("2024-03-01", 2)] }

/-- C5 fails as stated: the code computes the window start as
`(latestDay + 1 day) − 1 month` (src/unnamed/part_001:267-268), not
`latestDay − 1 month + 1 day`.  With latest day 2024-03-31 the code's window
is `[2024-03-01, 2024-04-01)` and selects the `Hits` key 2024-03-01, while
the claim's formula gives the window `[2024-03-03, 2024-04-01)`, which
excludes it. -/
theorem C5_counterexample :
    lastKeyOf statsMarch = "2024-03-31" ∧
    statsMarch.recentKeys = ["2024-03-31", "2024-03-01"] ∧
    claimRecentKeys statsMarch = ["2024-03-31"] ∧
    statsMarch.recentKeys ≠ claimRecentKeys statsMarch :=
  ⟨by decide, by decide, by decide, by decide⟩

/-- C5 (amended): for every state with at least one day key in `Hits` whose
greatest key parses as a date `(y, m, d)`, the trailing-window rollup selects
exactly the day keys `k` present in `Hits` with
`(latestDay + 1 day) − 1 month ≤ k < latestDay + 1 day` — one day forward
first, then one month back, each with Go `AddDate` normalisation (equal to
the claim's `latestDay − 1 month + 1 day` whenever no month-end overflow
occurs) — where `latestDay` is the lexicographically greatest key present;
window days with no `Hits` entry are absent from the result. -/
theorem C5_trailing_window (stats : LogStats) (y m d : Int)
    (hne : stats.Hits ≠ [])
    (hparse : parseDate (lastKeyOf stats) = some (y, m, d)) :
    (lastKeyOf stats ∈ keysA stats.Hits ∧
      ∀ k ∈ keysA stats.Hits, strLe k (lastKeyOf stats) = true) ∧
    (∀ k : String, k ∈ stats.recentKeys ↔
      (k ∈ keysA stats.Hits ∧
        strLe (formatYMD (addDate (addDate (y, m, d) 0 0 1) 0 (-1) 0)) k = true ∧
        strLt k (formatYMD (addDate (y, m, d) 0 0 1)) = true)) := by
  constructor
  · constructor
    · rcases foldl_lastKeyStep_mem stats.Hits "" with h | h
      · rw [lastKeyOf_eq_foldl, h] at hparse
        simp [parseDate] at hparse
      · rw [lastKeyOf_eq_foldl]
        exact h
    · intro k hk
      rw [keysA, List.mem_map] at hk
      obtain ⟨p, hp, hpk⟩ := hk
      rw [lastKeyOf_eq_foldl, ← hpk]
      exact foldl_lastKeyStep_ge stats.Hits "" p hp
  · intro k
    rw [LogStats.recentKeys]
    simp only [parseDateD, hparse, Option.getD_some, List.mem_filter,
      Bool.and_eq_true]

theorem C5_trailing_window_witness :
    (statsMarch.Hits ≠ [] ∧
      parseDate (lastKeyOf statsMarch) = some (2024, 3, 31)) ∧
    ((lastKeyOf statsMarch ∈ keysA statsMarch.Hits ∧
      ∀ k ∈ keysA statsMarch.Hits, strLe k (lastKeyOf statsMarch) = true) ∧
    (∀ k : String, k ∈ statsMarch.recentKeys ↔
      (k ∈ keysA statsMarch.Hits ∧
        strLe (formatYMD (addDate (addDate (2024, 3, 31) 0 0 1) 0 (-1) 0)) k = true ∧
        strLt k (formatYMD (addDate (2024, 3, 31) 0 0 1)) = true))) :=
  ⟨⟨by decide, by decide⟩,
    C5_trailing_window statsMarch 2024 3 31 (by decide) (by decide)⟩

/-! ## C6 — the method rollup excludes `"-"`, not `"unknown"` -/

/-- The summed hits for method key `k` across one day's method-entry list. -/
def methodHitsFor (k : String) (entries : List (String × Nat)) : Nat :=
  (entries.map fun q => if q.1 = k then q.2 else 0).sum

theorem methAccum_getA (entries : List (String × Nat)) :
    ∀ (a : List (String × Nat)) (k : String), k ≠ "-" →
      getA (entries.foldl
        (fun a q => if q.1 ≠ "-" then setA a q.1 (getA a q.1 0 + q.2) else a) a) k 0 =
        getA a k 0 + methodHitsFor k entries := by
  induction entries with
  | nil => intro a k hk; simp [methodHitsFor]
  | cons q rest ih =>
    intro a k hk
    rw [List.foldl_cons, ih _ k hk]
    simp only [methodHitsFor, List.map_cons, List.sum_cons]
    by_cases hq : q.1 = "-"
    · have h1 : ¬q.1 ≠ "-" := by simp [hq]
      have h2 : ¬q.1 = k := by rw [hq]; exact fun h => hk h.symm
      rw [if_neg h1, if_neg h2]
      omega
    · rw [if_pos hq, getA_setA]
      by_cases hqk : q.1 = k
      · subst hqk
        rw [if_pos rfl, if_pos rfl]
        omega
      · rw [if_neg (fun h => hqk h.symm), if_neg hqk]
        omega

theorem methAccum_dash (entries : List (String × Nat)) :
    ∀ a : List (String × Nat),
      lookupA "-" (entries.foldl
        (fun a q => if q.1 ≠ "-" then setA a q.1 (getA a q.1 0 + q.2) else a) a) =
        lookupA "-" a := by
  induction entries with
  | nil => intro a; rfl
  | cons q rest ih =>
    intro a
    rw [List.foldl_cons, ih]
    by_cases hq : q.1 = "-"
    · simp [hq]
    · simp only [ne_eq, hq, not_false_eq_true, if_true]
      exact lookupA_setA_ne _ _ _ _ (fun h => hq h.symm)

theorem methRespAggregates_fst (stats : LogStats) :
    ∀ (days : List String) (acc : List (String × Nat) × List (Nat × Nat)),
      (days.foldl
        (fun acc date =>
          ((getA stats.Methods date []).foldl
            (fun a q => if q.1 ≠ "-" then setA a q.1 (getA a q.1 0 + q.2) else a) acc.1,
           (getA stats.RespCodes date []).foldl
            (fun a q => setA a q.1 (getA a q.1 0 + q.2)) acc.2)) acc).1 =
      days.foldl
        (fun a date => (getA stats.Methods date []).foldl
          (fun a q => if q.1 ≠ "-" then setA a q.1 (getA a q.1 0 + q.2) else a) a)
        acc.1 := by
  intro days
  induction days with
  | nil => intro acc; rfl
  | cons d rest ih =>
    intro acc
    rw [List.foldl_cons, List.foldl_cons, ih]

theorem methAggr_days (stats : LogStats) :
    ∀ (days : List String) (a : List (String × Nat)) (k : String), k ≠ "-" →
      getA (days.foldl
        (fun a date => (getA stats.Methods date []).foldl
          (fun a q => if q.1 ≠ "-" then setA a q.1 (getA a q.1 0 + q.2) else a) a)
        a) k 0 =
      getA a k 0 + (days.map fun date => methodHitsFor k (getA stats.Methods date [])).sum := by
  intro days
  induction days with
  | nil => intro a k hk; simp
  | cons d rest ih =>
    intro a k hk
    rw [List.foldl_cons, ih _ k hk, methAccum_getA _ _ k hk, List.map_cons,
      List.sum_cons]
    omega

theorem methAggr_days_dash (stats : LogStats) :
    ∀ (days : List String) (a : List (String × Nat)),
      lookupA "-" (days.foldl
        (fun a date => (getA stats.Methods date []).foldl
          (fun a q => if q.1 ≠ "-" then setA a q.1 (getA a q.1 0 + q.2) else a) a)
        a) = lookupA "-" a := by
  intro days
  induction days with
  | nil => intro a; rfl
  | cons d rest ih =>
    intro a
    rw [List.foldl_cons, ih, methAccum_dash]

/-- A state whose single in-window day has method counts for `"unknown"`,
`"-"` and `"GET"`. -/
def statsMethods : LogStats :=
  { NewLogStats with Hits := [("2024-01-01", 10)], Methods := [("2024-01-01", [("unknown", 2), ("-", 3), ("GET", 5)])] }

/-- C6 fails as stated: the token the method rollup skips is the literal
`"-"` (src/unnamed/part_001:316), not the literal `"unknown"`.  On
`statsMethods` the rollup *includes* the method token `"unknown"` with its
count and *excludes* the token `"-"`. -/
theorem C6_counterexample :
    statsMethods.recentKeys = ["2024-01-01"] ∧
    lookupA "unknown" statsMethods.MethRespAggregates.1 = some 2 ∧
    lookupA "-" statsMethods.MethRespAggregates.1 = none :=
  ⟨by decide, by decide, by decide⟩

/-- C6 (amended): the flat method rollup sums per-day method hit counts over
the trailing window while excluding exactly the literal placeholder `"-"`
token (the dash that stands for an unknown method); every other method token
present — including one literally spelled `"unknown"` — is included with its
full summed count. -/
theorem C6_method_rollup_excludes_dash (stats : LogStats) (meth : String)
    (h : meth ≠ "-") :
    lookupA "-" stats.MethRespAggregates.1 = none ∧
    getA stats.MethRespAggregates.1 meth 0 =
      (stats.recentKeys.map fun date =>
        methodHitsFor meth (getA stats.Methods date [])).sum := by
  have hfst : stats.MethRespAggregates.1 =
      stats.recentKeys.foldl
        (fun a date => (getA stats.Methods date []).foldl
          (fun a q => if q.1 ≠ "-" then setA a q.1 (getA a q.1 0 + q.2) else a) a)
        [] := by
    rw [LogStats.MethRespAggregates]
    exact methRespAggregates_fst stats stats.recentKeys ([], [])
  rw [hfst]
  constructor
  · rw [methAggr_days_dash]
    rfl
  · rw [methAggr_days stats stats.recentKeys [] meth h]
    simp

theorem C6_method_rollup_excludes_dash_witness :
    (("GET" : String) ≠ "-") ∧
    (lookupA "-" statsMethods.MethRespAggregates.1 = none ∧
      getA statsMethods.MethRespAggregates.1 "GET" 0 =
        (statsMethods.recentKeys.map fun date =>
          methodHitsFor "GET" (getA statsMethods.Methods date [])).sum) :=
  ⟨by decide, C6_method_rollup_excludes_dash statsMethods "GET" (by decide)⟩

/-! ## C1 — enrichment failure and the country merge -/

theorem lookupA_eq_none_of_not_mem_keys {κ α : Type} [DecidableEq κ]
    {m : List (κ × α)} {k : κ} (h : k ∉ keysA m) : lookupA k m = none := by
  induction m with
  | nil => rfl
  | cons p rest ih =>
    rw [keysA, List.map_cons, List.mem_cons, not_or] at h
    rw [lookupA_cons, if_neg h.1]
    exact ih h.2

theorem mem_of_lookupA_eq_some {κ α : Type} [DecidableEq κ]
    {m : List (κ × α)} {k : κ} {v : α} (h : lookupA k m = some v) : (k, v) ∈ m := by
  induction m with
  | nil => cases h
  | cons p rest ih =>
    rw [lookupA_cons] at h
    split_ifs at h with hk
    · injection h with h
      subst hk
      subst h
      exact List.mem_cons_self p rest
    · exact List.mem_cons_of_mem p (ih h)

theorem lookupA_foldl_setA (f : String → String) (vs : List String) :
    ∀ (m0 : List (String × String)) (v : String),
      lookupA v (vs.foldl (fun m u => setA m u (f u)) m0) =
        if v ∈ vs then some (f v) else lookupA v m0 := by
  induction vs with
  | nil => intro m0 v; simp
  | cons u rest ih =>
    intro m0 v
    rw [List.foldl_cons, ih]
    by_cases hv : v ∈ rest
    · simp [hv]
    · by_cases hvu : v = u
      · subst hvu
        simp [hv, lookupA_setA]
      · simp [hv, hvu, lookupA_setA_ne _ _ _ _ hvu]

/-- After `ParallelLookup`, every submitted visitor is found in the cache,
bound to its resolved country or to the sentinel `"Vietnam"` on failure. -/
theorem ParallelLookup_covers (geo : String → Option String) (vs : List String)
    (v : String) (hv : v ∈ vs) :
    CountryLookup.Lookup (ParallelLookup geo vs) v = some ((geo v).getD "Vietnam") := by
  rw [CountryLookup.Lookup, ParallelLookup, lookupA_foldl_setA, if_pos hv]

theorem uvInner_foldl_mono (pairs : List (String × Nat)) :
    ∀ (ks : List String) (x : String), x ∈ ks → x ∈ pairs.foldl uvInner ks := by
  induction pairs with
  | nil => intro ks x hx; exact hx
  | cons q rest ih =>
    intro ks x hx
    rw [List.foldl_cons]
    refine ih _ x ?_
    rw [uvInner]
    split_ifs
    · exact hx
    · exact List.mem_append_left _ hx

theorem uvInner_foldl_mem (pairs : List (String × Nat)) :
    ∀ (ks : List String) (ip : String) (cnt : Nat), (ip, cnt) ∈ pairs →
      ip ∈ pairs.foldl uvInner ks := by
  induction pairs with
  | nil => intro ks ip cnt h; cases h
  | cons q rest ih =>
    intro ks ip cnt h
    rw [List.foldl_cons]
    rcases List.mem_cons.mp h with h | h
    · refine uvInner_foldl_mono rest _ ip ?_
      rw [uvInner]
      split_ifs with hc
      · have : q.1 ∈ ks := List.mem_of_elem_eq_true hc
        rw [← h] at this
        exact this
      · rw [← h]
        exact List.mem_append_right _ (List.mem_singleton.mpr rfl)
    · exact ih _ ip cnt h

theorem uvOuter_foldl_mono (l : List (String × List (String × Nat))) :
    ∀ (ks : List String) (x : String), x ∈ ks →
      x ∈ l.foldl (fun keys p => p.2.foldl uvInner keys) ks := by
  induction l with
  | nil => intro ks x hx; exact hx
  | cons r rest ih =>
    intro ks x hx
    rw [List.foldl_cons]
    exact ih _ x (uvInner_foldl_mono r.2 ks x hx)

theorem uniqueVisitors_mem (m : List (String × List (String × Nat))) :
    ∀ (ks : List String) (p : String × List (String × Nat)) (ip : String) (cnt : Nat),
      p ∈ m → (ip, cnt) ∈ p.2 →
      ip ∈ m.foldl (fun keys p => p.2.foldl uvInner keys) ks := by
  induction m with
  | nil => intro ks p ip cnt hp; cases hp
  | cons r rest ih =>
    intro ks p ip cnt hp hq
    rw [List.foldl_cons]
    rcases List.mem_cons.mp hp with h | h
    · subst h
      exact uvOuter_foldl_mono rest _ ip (uvInner_foldl_mem p.2 ks ip cnt hq)
    · exact ih _ p ip cnt h hq

@[simp] theorem getA_cons {κ α : Type} [DecidableEq κ] (k k' : κ) (v d : α)
    (m : List (κ × α)) :
    getA ((k', v) :: m) k d = if k = k' then v else getA m k d := by
  rw [getA, lookupA_cons]
  split_ifs <;> rfl

/-- The visits that one day's per-address visit map contributes to country
`c` when each address `ip` resolves to country `val ip`. -/
def visitsTo (val : String → String) (c : String) (ipMap : List (String × Nat)) : Nat :=
  (ipMap.map fun q => if val q.1 = c then q.2 else 0).sum

theorem mergeVisitor_getA (cl : CountryLookup) (date : String)
    (ctr : List (String × List (String × Nat))) (q : String × Nat) (c0 : String)
    (hq : CountryLookup.Lookup cl q.1 = some c0) :
    getA (mergeVisitor cl date ctr q) date [] =
      setA (getA ctr date []) c0 (getA (getA ctr date []) c0 0 + q.2) ∧
    ∀ d', d' ≠ date → getA (mergeVisitor cl date ctr q) d' [] = getA ctr d' [] := by
  have hctr1date :
      getA (if (lookupA date ctr).isNone then setA ctr date [] else ctr) date [] =
        getA ctr date [] := by
    split_ifs with h
    · rw [Option.isNone_iff_eq_none] at h
      rw [getA_setA_self, getA, h]
      rfl
    · rfl
  have hctr1other : ∀ d', d' ≠ date →
      getA (if (lookupA date ctr).isNone then setA ctr date [] else ctr) d' [] =
        getA ctr d' [] := by
    intro d' hd'
    split_ifs with h
    · rw [getA_setA, if_neg hd']
    · rfl
  constructor
  · simp only [mergeVisitor, hq]
    rw [getA_setA_self, hctr1date]
  · intro d' hd'
    simp only [mergeVisitor, hq]
    rw [getA_setA, if_neg hd', hctr1other d' hd']

theorem mergeVisitor_foldl (cl : CountryLookup) (val : String → String)
    (date : String) :
    ∀ ipMap : List (String × Nat),
      (∀ q ∈ ipMap, CountryLookup.Lookup cl q.1 = some (val q.1)) →
      ∀ ctr,
        (∀ c, getA (getA (ipMap.foldl (mergeVisitor cl date) ctr) date []) c 0 =
          getA (getA ctr date []) c 0 + visitsTo val c ipMap) ∧
        (∀ d', d' ≠ date →
          getA (ipMap.foldl (mergeVisitor cl date) ctr) d' [] = getA ctr d' []) := by
  intro ipMap
  induction ipMap with
  | nil =>
    intro _ ctr
    exact ⟨fun c => by simp [visitsTo], fun d' _ => rfl⟩
  | cons q rest ih =>
    intro hcl ctr
    obtain ⟨hstep_date, hstep_other⟩ :=
      mergeVisitor_getA cl date ctr q (val q.1) (hcl q (List.mem_cons_self q rest))
    obtain ⟨ihc, ihd⟩ :=
      ih (fun q' h => hcl q' (List.mem_cons_of_mem q h)) (mergeVisitor cl date ctr q)
    constructor
    · intro c
      rw [List.foldl_cons, ihc c, hstep_date, getA_setA]
      simp only [visitsTo, List.map_cons, List.sum_cons]
      by_cases hc : c = val q.1
      · subst hc
        rw [if_pos rfl, if_pos rfl]
        omega
      · rw [if_neg hc, if_neg fun h => hc h.symm]
        simp [visitsTo]
    · intro d' hd'
      rw [List.foldl_cons, ihd d' hd', hstep_other d' hd']

theorem merge_foldl (cl : CountryLookup) (val : String → String) :
    ∀ ps : List (String × List (String × Nat)),
      (∀ p ∈ ps, ∀ q ∈ p.2, CountryLookup.Lookup cl q.1 = some (val q.1)) →
      (keysA ps).Nodup →
      ∀ ctr date c,
        getA (getA (ps.foldl (fun ctr p => p.2.foldl (mergeVisitor cl p.1) ctr) ctr)
            date []) c 0 =
          getA (getA ctr date []) c 0 + visitsTo val c (getA ps date []) := by
  intro ps
  induction ps with
  | nil =>
    intro _ _ ctr date c
    simp [visitsTo]
  | cons p rest ih =>
    obtain ⟨d0, map0⟩ := p
    intro hcl hnd ctr date c
    rw [keysA, List.map_cons, List.nodup_cons] at hnd
    have hknot : d0 ∉ keysA rest := hnd.1
    rw [List.foldl_cons]
    obtain ⟨innerC, innerD⟩ :=
      mergeVisitor_foldl cl val d0 map0
        (hcl (d0, map0) (List.mem_cons_self _ rest)) ctr
    have ihres := ih (fun p' h' q' hq' => hcl p' (List.mem_cons_of_mem _ h') q' hq')
      hnd.2 (map0.foldl (mergeVisitor cl d0) ctr) date c
    by_cases hd : date = d0
    · subst hd
      rw [ihres, getA_cons, if_pos rfl]
      have hrest : getA rest date [] = [] := by
        rw [getA, lookupA_eq_none_of_not_mem_keys hknot]
        rfl
      rw [hrest, innerC c]
      simp [visitsTo]
    · rw [ihres, getA_cons, if_neg hd, innerD date hd]

/-- All `LookupCountries` ever mutates is `CtrVisits`. -/
theorem LookupCountries_fields (stats : LogStats) (geo : String → Option String) :
    (stats.LookupCountries geo).Hits = stats.Hits ∧
    (stats.LookupCountries geo).Files = stats.Files ∧
    (stats.LookupCountries geo).Pages = stats.Pages ∧
    (stats.LookupCountries geo).Bytes = stats.Bytes ∧
    (stats.LookupCountries geo).Visits = stats.Visits ∧
    (stats.LookupCountries geo).FirstVisit = stats.FirstVisit ∧
    (stats.LookupCountries geo).LastVisit = stats.LastVisit ∧
    (stats.LookupCountries geo).Sites = stats.Sites ∧
    (stats.LookupCountries geo).Methods = stats.Methods ∧
    (stats.LookupCountries geo).RespCodes = stats.RespCodes ∧
    (stats.LookupCountries geo).IPs = stats.IPs ∧
    (stats.LookupCountries geo).UserAgents = stats.UserAgents ∧
    (stats.LookupCountries geo).URLPaths = stats.URLPaths ∧
    (stats.LookupCountries geo).Referrers = stats.Referrers :=
  ⟨rfl, rfl, rfl, rfl, rfl, rfl, rfl, rfl, rfl, rfl, rfl, rfl, rfl, rfl⟩

/-- A state with one visitor, two visits on one day, and all else empty. -/
def statsOneVisitor : LogStats :=
  { NewLogStats with Visits := [("2024-01-01", [("1.2.3.4", 2)])] }

/-- C1 fails as stated: when resolution/lookup fails for an address, the
worker assigns the fallback sentinel `"Vietnam"`
(src/internal/countrycache/countrycache.go:96-99) and publishes the pair, so
`Lookup` finds every submitted address and the merge's skip branch
(src/unnamed/part_001:183) never fires for it.  With an oracle that fails for
every address, the visits of `statsOneVisitor` are *not* excluded from the
per-day country map: they are booked under `"Vietnam"`. -/
theorem C1_counterexample :
    (statsOneVisitor.LookupCountries fun _ => none).CtrVisits =
      [("2024-01-01", [("Vietnam", 2)])] ∧
    sumVals (getA (statsOneVisitor.LookupCountries fun _ => none).CtrVisits
      "2024-01-01" []) = 2 :=
  ⟨by decide, by decide⟩

/-- C1 (amended): for every address whose country resolution or database
lookup fails during enrichment, the completed cache binds that address to the
fallback sentinel `"Vietnam"`, and the merge step adds the address's visits
to the per-day country visit map under that sentinel — no address's visits
are excluded — while leaving the address present and unchanged in every
other per-day/per-address metric: putting `CtrVisits` back restores the
state, each day's per-country totals are exactly the day's per-address visit
counts grouped by resolved-or-fallback country, and every address appearing
in `Visits` is found in the cache.  (`CtrVisits = []` and the `Nodup` key
hypothesis are the state `ProcessLog` hands to `LookupCountries`: the merge
runs once, on a fresh country map, over a well-formed Go map.) -/
theorem C1_enrichment_fallback (stats : LogStats) (geo : String → Option String)
    (h0 : stats.CtrVisits = []) (hnd : (keysA stats.Visits).Nodup) :
    ({ stats.LookupCountries geo with CtrVisits := stats.CtrVisits } = stats) ∧
    (∀ (date v : String) (ipMap : List (String × Nat)) (cnt : Nat),
      lookupA date stats.Visits = some ipMap → (v, cnt) ∈ ipMap →
      CountryLookup.Lookup (ParallelLookup geo (uniqueVisitors stats.Visits)) v =
        some ((geo v).getD "Vietnam")) ∧
    (∀ date c : String,
      getA (getA (stats.LookupCountries geo).CtrVisits date []) c 0 =
        visitsTo (fun ip => (geo ip).getD "Vietnam") c (getA stats.Visits date [])) := by
  have hcover : ∀ p ∈ stats.Visits, ∀ q ∈ p.2,
      CountryLookup.Lookup (ParallelLookup geo (uniqueVisitors stats.Visits)) q.1 =
        some ((geo q.1).getD "Vietnam") := by
    intro p hp q hq
    refine ParallelLookup_covers geo _ q.1 ?_
    exact uniqueVisitors_mem stats.Visits [] p q.1 q.2 hp (by simpa using hq)
  refine ⟨rfl, ?_, ?_⟩
  · intro date v ipMap cnt hdate hv
    exact hcover (date, ipMap) (mem_of_lookupA_eq_some hdate) (v, cnt) hv
  · intro date c
    have hctr : (stats.LookupCountries geo).CtrVisits =
        stats.Visits.foldl
          (fun ctr p => p.2.foldl
            (mergeVisitor (ParallelLookup geo (uniqueVisitors stats.Visits)) p.1) ctr)
          stats.CtrVisits := rfl
    rw [hctr, merge_foldl (ParallelLookup geo (uniqueVisitors stats.Visits))
      (fun ip => (geo ip).getD "Vietnam") stats.Visits hcover hnd
      stats.CtrVisits date c, h0]
    simp

theorem C1_enrichment_fallback_witness :
    (statsOneVisitor.CtrVisits = [] ∧ (keysA statsOneVisitor.Visits).Nodup) ∧
    (({ statsOneVisitor.LookupCountries (fun _ => none) with
        CtrVisits := statsOneVisitor.CtrVisits } = statsOneVisitor) ∧
    (∀ (date v : String) (ipMap : List (String × Nat)) (cnt : Nat),
      lookupA date statsOneVisitor.Visits = some ipMap → (v, cnt) ∈ ipMap →
      CountryLookup.Lookup
          (ParallelLookup (fun _ => none) (uniqueVisitors statsOneVisitor.Visits)) v =
        some (((fun _ : String => (none : Option String)) v).getD "Vietnam")) ∧
    (∀ date c : String,
      getA (getA (statsOneVisitor.LookupCountries fun _ => none).CtrVisits date []) c 0 =
        visitsTo (fun ip => ((fun _ : String => (none : Option String)) ip).getD "Vietnam")
          c (getA statsOneVisitor.Visits date []))) :=
  ⟨⟨rfl, by decide⟩,
    C1_enrichment_fallback statsOneVisitor (fun _ => none) rfl (by decide)⟩
